import Mathlib

/-!
Shallow embedding of `src/element/element_api.py` (class `ElementApi`).

Covered: the paginated request engine `_make_req` (lines 133-166), the
identifier cache with forward and reverse resolution
(`decentlab_id_from_address`, lines 54-75, and `address_from_decentlab_id`,
lines 77-131), the derived reverse view `_address_to_id_mapping`
(lines 47-52), and the printable representation `__repr__` (lines 382-389).

Remote responses are supplied by explicit environments (`PageSource` for the
paginator, `Env` for the cache operations); the HTTP transport and JSON wire
format are abstracted away, as in the specification's scope section.
Individual records are opaque and indexed by natural numbers.  Python dicts
are modelled as insertion-ordered association lists with
overwrite-in-place assignment, matching CPython semantics for the dicts the
source manipulates.
-/

namespace ElementApi

/-- Lookup in an insertion-ordered association list (Python `dict.get`). -/
def assocGet {α β : Type} [DecidableEq α] : List (α × β) → α → Option β
  | [], _ => none
  | p :: rest, k => if p.1 = k then some p.2 else assocGet rest k

/-- Assignment `d[k] = v` on an insertion-ordered association list: an
existing key keeps its position and receives the new value, a fresh key is
appended at the end (Python dict update semantics). -/
def assocSet {α β : Type} [DecidableEq α] : List (α × β) → α → β → List (α × β)
  | [], k, v => [(k, v)]
  | p :: rest, k, v => if p.1 = k then (k, v) :: rest else p :: assocSet rest k v

/-- The keys of an association list, in order (Python `dict.keys()`). -/
def assocKeys {α β : Type} (l : List (α × β)) : List α :=
  l.map Prod.fst

/-- The values of an association list, in order (Python `dict.values()`). -/
def assocValues {α β : Type} (l : List (α × β)) : List β :=
  l.map Prod.snd

/-! ### Basic association-list lemmas -/

theorem assocGet_assocSet_self {α β : Type} [DecidableEq α] (l : List (α × β)) (k : α) (v : β) :
    assocGet (assocSet l k v) k = some v := by
  induction l with
  | nil => simp [assocGet, assocSet]
  | cons p rest ih =>
    by_cases h : p.1 = k
    · simp [assocGet, assocSet, h]
    · simp [assocGet, assocSet, h, ih]

theorem assocGet_assocSet_ne {α β : Type} [DecidableEq α] (l : List (α × β)) (k k' : α) (v : β)
    (h : k' ≠ k) : assocGet (assocSet l k v) k' = assocGet l k' := by
  have hk : k ≠ k' := fun he => h he.symm
  induction l with
  | nil => simp [assocGet, assocSet, hk]
  | cons p rest ih =>
    by_cases hp : p.1 = k
    · have hp' : p.1 ≠ k' := hp ▸ hk
      simp [assocGet, assocSet, hp, hk, hp']
    · by_cases hp' : p.1 = k'
      · simp [assocGet, assocSet, hp, hp', h]
      · simp [assocGet, assocSet, hp, hp', ih]

theorem assocSet_ne_nil {α β : Type} [DecidableEq α] (l : List (α × β)) (k : α) (v : β) :
    assocSet l k v ≠ [] := by
  cases l with
  | nil => simp [assocSet]
  | cons p rest =>
    by_cases h : p.1 = k <;> simp [assocSet, h]

theorem mem_of_assocGet_eq_some {α β : Type} [DecidableEq α] {l : List (α × β)} {k : α} {v : β}
    (h : assocGet l k = some v) : (k, v) ∈ l := by
  induction l with
  | nil => simp [assocGet] at h
  | cons p rest ih =>
    by_cases hp : p.1 = k
    · simp [assocGet, hp] at h
      refine List.mem_cons.mpr (Or.inl ?_)
      cases p
      simp_all
    · simp [assocGet, hp] at h
      exact List.mem_cons_of_mem _ (ih h)

theorem assocGet_eq_some_of_mem_of_nodup {α β : Type} [DecidableEq α] {l : List (α × β)}
    {k : α} {v : β} (hnd : (assocKeys l).Nodup) (hmem : (k, v) ∈ l) :
    assocGet l k = some v := by
  induction l with
  | nil => simp at hmem
  | cons p rest ih =>
    simp only [assocKeys, List.map_cons, List.nodup_cons] at hnd
    rcases List.mem_cons.mp hmem with h | h
    · simp [assocGet, ← h]
    · have hk : p.1 ≠ k := by
        intro he
        exact hnd.1 (he ▸ (List.mem_map.mpr ⟨(k, v), h, rfl⟩))
      simp only [assocGet, hk, if_neg]
      exact ih hnd.2 h

theorem assocGet_eq_none_of_not_mem_keys {α β : Type} [DecidableEq α] {l : List (α × β)}
    {k : α} (h : k ∉ assocKeys l) : assocGet l k = none := by
  induction l with
  | nil => simp [assocGet]
  | cons p rest ih =>
    simp only [assocKeys, List.map_cons, List.mem_cons] at h
    push_neg at h
    have hp : p.1 ≠ k := fun he => h.1 he.symm
    rw [show assocGet (p :: rest) k = if p.1 = k then some p.2 else assocGet rest k from rfl,
      if_neg hp]
    exact ih (by simpa [assocKeys] using h.2)

theorem assocSet_eq_append_of_not_mem_keys {α β : Type} [DecidableEq α] {l : List (α × β)}
    {k : α} (v : β) (h : k ∉ assocKeys l) : assocSet l k v = l ++ [(k, v)] := by
  induction l with
  | nil => simp [assocSet]
  | cons p rest ih =>
    simp only [assocKeys, List.map_cons, List.mem_cons] at h
    push_neg at h
    have hp : p.1 ≠ k := fun he => h.1 he.symm
    rw [show assocSet (p :: rest) k v
        = if p.1 = k then (k, v) :: rest else p :: assocSet rest k v from rfl,
      if_neg hp, ih (by simpa [assocKeys] using h.2)]
    simp

theorem mem_assocValues_assocSet {α β : Type} [DecidableEq α] {l : List (α × β)}
    {k : α} {v x : β} (h : x ∈ assocValues (assocSet l k v)) :
    x = v ∨ x ∈ assocValues l := by
  induction l with
  | nil => simpa [assocSet, assocValues] using h
  | cons p rest ih =>
    by_cases hp : p.1 = k
    · simp only [assocSet, hp, if_pos, assocValues, List.map_cons] at h ⊢
      rcases List.mem_cons.mp h with h | h
      · exact Or.inl h
      · exact Or.inr (List.mem_cons_of_mem _ h)
    · simp only [assocSet, hp, if_neg, assocValues, List.map_cons] at h ⊢
      rcases List.mem_cons.mp h with h | h
      · exact Or.inr (List.mem_cons.mpr (Or.inl h))
      · rcases ih h with h | h
        · exact Or.inl h
        · exact Or.inr (List.mem_cons_of_mem _ h)

theorem mem_of_mem_assocSet {α β : Type} [DecidableEq α] {l : List (α × β)}
    {k : α} {v : β} {p : α × β} (h : p ∈ assocSet l k v) : p = (k, v) ∨ p ∈ l := by
  induction l with
  | nil => simpa [assocSet] using h
  | cons q rest ih =>
    by_cases hq : q.1 = k
    · simp only [assocSet, hq, if_pos] at h
      rcases List.mem_cons.mp h with h | h
      · exact Or.inl h
      · exact Or.inr (List.mem_cons_of_mem _ h)
    · simp only [assocSet, hq, if_neg] at h
      rcases List.mem_cons.mp h with h | h
      · exact Or.inr (List.mem_cons.mpr (Or.inl h))
      · rcases ih h with h | h
        · exact Or.inl h
        · exact Or.inr (List.mem_cons_of_mem _ h)

/-! ### The paginated request engine `_make_req` (lines 133-166) -/

/-- Response body of one API envelope: either a JSON array of records or a
single record.  Records are opaque and indexed by natural numbers. -/
inductive Body where
  | records : List Nat → Body
  | scalar : Nat → Body
deriving DecidableEq

/-- Error raised by `_make_req` when a continuation token is present but the
accumulated body is not an array (`TypeError` in the source, line 161). -/
inductive PaginationError where
  | typeError
deriving DecidableEq

/-- A paginated response source: the first envelope, plus, for every
continuation token, the continuation envelope it yields.  Continuation
bodies are record arrays, the only shape the claims exercise (extending a
Python list with a non-list is not modelled). -/
structure PageSource where
  firstBody : Body
  firstTok : Option Nat
  next : Nat → List Nat × Option Nat

/-- Truthiness of `max_pages and i >= max_pages` (line 150): `None` and `0`
are falsy in Python, so the page cap is active only for a nonzero cap. -/
def pageCapReached (maxPages : Option Nat) (i : Nat) : Bool :=
  match maxPages with
  | none => false
  | some m => m != 0 && decide (m ≤ i)

/-- The pagination loop of `ElementApi._make_req` (lines 147-166).  State:
the merged body so far, the latest continuation token (`while
retrieve_after_id` treats `None` and `0` as falsy), the page counter `i`
(starting at 1), and the number of requests issued so far (starting at 1
for the initial request).  `fuel` bounds the number of continuation fetches
so the function is total; `none` means the fuel ran out before the loop
finished.  On a continuation the request is issued first, then the token is
updated, then the body shape is checked, exactly as in the source. -/
def makeReqLoop (next : Nat → List Nat × Option Nat) (maxPages : Option Nat) :
    Nat → Body → Option Nat → Nat → Nat → Option (Except PaginationError Body × Nat)
  | _, body, none, _, reqs => some (Except.ok body, reqs)
  | fuel, body, some t, i, reqs =>
    if t = 0 then some (Except.ok body, reqs)
    else if pageCapReached maxPages i then some (Except.ok body, reqs)
    else
      match fuel with
      | 0 => none
      | fuel' + 1 =>
        match body with
        | Body.records rs =>
            makeReqLoop next maxPages fuel' (Body.records (rs ++ (next t).1)) (next t).2
              (i + 1) (reqs + 1)
        | Body.scalar _ => some (Except.error PaginationError.typeError, reqs + 1)

/-- `ElementApi._make_req` against a response source: issue the initial
request and run the pagination loop with `i = 1` and one request counted.
Returns the final body (or the pagination-shape error) together with the
total number of requests issued. -/
def makeReq (src : PageSource) (maxPages : Option Nat) (fuel : Nat) :
    Option (Except PaginationError Body × Nat) :=
  makeReqLoop src.next maxPages fuel src.firstBody src.firstTok 1 1

/-- `Emits next tok pages`: starting from continuation token `tok`, the
source yields exactly `pages` further envelopes (each a record array held
together by truthy tokens) and the last envelope carries no token. -/
inductive Emits (next : Nat → List Nat × Option Nat) : Option Nat → List (List Nat) → Prop
  | nil : Emits next none []
  | cons {t : Nat} {p : List Nat} {tok' : Option Nat} {ps : List (List Nat)} :
      t ≠ 0 → next t = (p, tok') → Emits next tok' ps → Emits next (some t) (p :: ps)

theorem makeReqLoop_tok_none {next : Nat → List Nat × Option Nat} {maxPages : Option Nat}
    {fuel : Nat} {body : Body} {i reqs : Nat} :
    makeReqLoop next maxPages fuel body none i reqs = some (Except.ok body, reqs) := by
  cases fuel <;> rfl

theorem makeReqLoop_break {next : Nat → List Nat × Option Nat} {maxPages : Option Nat}
    {fuel : Nat} {body : Body} {t i reqs : Nat} (ht : t ≠ 0)
    (hc : pageCapReached maxPages i = true) :
    makeReqLoop next maxPages fuel body (some t) i reqs = some (Except.ok body, reqs) := by
  cases fuel <;> simp [makeReqLoop, ht, hc]

theorem makeReqLoop_cont {next : Nat → List Nat × Option Nat} {maxPages : Option Nat}
    {fuel : Nat} {rs : List Nat} {t i reqs : Nat} (ht : t ≠ 0)
    (hc : pageCapReached maxPages i = false) :
    makeReqLoop next maxPages (fuel + 1) (Body.records rs) (some t) i reqs
      = makeReqLoop next maxPages fuel (Body.records (rs ++ (next t).1)) (next t).2
          (i + 1) (reqs + 1) := by
  simp [makeReqLoop, ht, hc]

theorem makeReqLoop_scalar {next : Nat → List Nat × Option Nat} {maxPages : Option Nat}
    {fuel : Nat} {r t i reqs : Nat} (ht : t ≠ 0) (hc : pageCapReached maxPages i = false) :
    makeReqLoop next maxPages (fuel + 1) (Body.scalar r) (some t) i reqs
      = some (Except.error PaginationError.typeError, reqs + 1) := by
  simp [makeReqLoop, ht, hc]

theorem makeReqLoop_emits_unbounded {next : Nat → List Nat × Option Nat} {tok : Option Nat}
    {ps : List (List Nat)} (h : Emits next tok ps) :
    ∀ fuel rs i reqs, ps.length ≤ fuel →
      makeReqLoop next none fuel (Body.records rs) tok i reqs
        = some (Except.ok (Body.records (rs ++ ps.flatten)), reqs + ps.length) := by
  induction h with
  | nil => intro fuel rs i reqs _; simp [makeReqLoop_tok_none]
  | @cons t p tok' ps' ht hnext _ ih =>
    intro fuel rs i reqs hfuel
    simp only [List.length_cons] at hfuel
    cases fuel with
    | zero => omega
    | succ fuel' =>
      rw [makeReqLoop_cont ht (by simp [pageCapReached]), hnext]
      rw [ih fuel' (rs ++ p) (i + 1) (reqs + 1) (by omega)]
      simp only [List.flatten_cons, List.length_cons, ← List.append_assoc,
        Option.some.injEq, Prod.mk.injEq]
      exact ⟨trivial, by omega⟩

theorem makeReqLoop_emits_capped {next : Nat → List Nat × Option Nat} {m : Nat} (hm : m ≠ 0) :
    ∀ {tok : Option Nat} {ps : List (List Nat)}, Emits next tok ps →
      ∀ fuel rs i reqs, m - i ≤ ps.length → m - i ≤ fuel →
        makeReqLoop next (some m) fuel (Body.records rs) tok i reqs
          = some (Except.ok (Body.records (rs ++ (ps.take (m - i)).flatten)), reqs + (m - i)) := by
  intro tok ps h
  induction h with
  | nil =>
    intro fuel rs i reqs hlen _
    simp only [List.length_nil, Nat.le_zero] at hlen
    simp [makeReqLoop_tok_none, hlen]
  | @cons t p tok' ps' ht hnext _ ih =>
    intro fuel rs i reqs hlen hfuel
    by_cases hcap : m ≤ i
    · have hz : m - i = 0 := by omega
      rw [makeReqLoop_break ht (by simp [pageCapReached, hm, hcap]), hz]
      simp
    · have hreach : pageCapReached (some m) i = false := by
        simp [pageCapReached]
        omega
      cases fuel with
      | zero => omega
      | succ fuel' =>
        rw [makeReqLoop_cont ht hreach, hnext]
        rw [ih fuel' (rs ++ p) (i + 1) (reqs + 1)
          (by simp only [List.length_cons] at hlen; omega) (by omega)]
        have hz : m - i = (m - (i + 1)) + 1 := by omega
        rw [hz, List.take_succ_cons, List.flatten_cons, ← List.append_assoc]
        simp only [Option.some.injEq, Prod.mk.injEq]
        exact ⟨trivial, by omega⟩

/-- Claim C2: for every response source emitting `k` pages where pages
`1..k-1` carry a continuation token and page `k` does not, `_make_req` with
`max_pages=None` returns the first envelope with body equal to the
concatenation of all `k` pages' record sequences in page order; with
`max_pages=m` for `1 ≤ m < k` it returns exactly the first `m` pages'
records merged in order and issues exactly `m` requests (so `max_pages=1`
issues one request total and never follows a continuation token).  Here the
`k` pages are the first page `r0` followed by the continuation pages `ps`,
so `k = 1 + ps.length`. -/
theorem pagination_termination (src : PageSource) (r0 : List Nat) (ps : List (List Nat))
    (hbody : src.firstBody = Body.records r0) (hem : Emits src.next src.firstTok ps)
    (fuel : Nat) (hfuel : ps.length ≤ fuel) :
    makeReq src none fuel
      = some (Except.ok (Body.records (r0 ++ ps.flatten)), 1 + ps.length)
    ∧ ∀ m, 1 ≤ m → m < 1 + ps.length →
        makeReq src (some m) fuel
          = some (Except.ok (Body.records (r0 ++ (ps.take (m - 1)).flatten)), m) := by
  constructor
  · rw [makeReq, hbody, makeReqLoop_emits_unbounded hem fuel r0 1 1 hfuel, Nat.add_comm]
  · intro m hm1 hmk
    rw [makeReq, hbody,
      makeReqLoop_emits_capped (by omega) hem fuel r0 1 1 (by omega) (by omega)]
    have h1 : 1 + (m - 1) = m := by omega
    rw [h1]

/-- Witness for C2: a concrete three-page source (first page `[1, 2]`, then
`[3]`, then `[4]`). -/
theorem pagination_termination_witness :
    makeReq ⟨Body.records [1, 2], some 1, fun t => if t = 1 then ([3], some 2) else ([4], none)⟩
        none 2
      = some (Except.ok (Body.records ([1, 2] ++ [[3], [4]].flatten)), 1 + [[3], [4]].length)
    ∧ ∀ m, 1 ≤ m → m < 1 + [[3], [4]].length →
        makeReq
            ⟨Body.records [1, 2], some 1, fun t => if t = 1 then ([3], some 2) else ([4], none)⟩
            (some m) 2
          = some (Except.ok (Body.records ([1, 2] ++ ([[3], [4]].take (m - 1)).flatten)), m) :=
  pagination_termination _ [1, 2] [[3], [4]] rfl
    (@Emits.cons _ 1 [3] (some 2) [[4]] (by decide) (by decide)
      (@Emits.cons _ 2 [4] none [] (by decide) (by decide) Emits.nil))
    2 (by decide)

/-- Claim C5: if the first response body is a single record (not a
sequence) and a truthy continuation token is present, `_make_req` raises
the `TypeError`-class pagination-shape error on the first continuation
attempt (two requests total, no data returned); if no continuation token is
present, the scalar body is returned unchanged after one request. -/
theorem pagination_scalar_guard (src : PageSource) (r : Nat)
    (hbody : src.firstBody = Body.scalar r) :
    (∀ t maxPages fuel, src.firstTok = some t → t ≠ 0 →
        pageCapReached maxPages 1 = false → 1 ≤ fuel →
        makeReq src maxPages fuel = some (Except.error PaginationError.typeError, 2))
    ∧ (src.firstTok = none → ∀ maxPages fuel,
        makeReq src maxPages fuel = some (Except.ok (Body.scalar r), 1)) := by
  constructor
  · intro t maxPages fuel htok ht hcap hfuel
    cases fuel with
    | zero => omega
    | succ fuel' => rw [makeReq, hbody, htok, makeReqLoop_scalar ht hcap]
  · intro htok maxPages fuel
    rw [makeReq, hbody, htok, makeReqLoop_tok_none]

/-- Witness for C5: a concrete scalar first response with a truthy token
raises the pagination-shape error after the single continuation fetch. -/
theorem pagination_scalar_guard_witness :
    makeReq ⟨Body.scalar 7, some 1, fun _ => ([], none)⟩ none 1
      = some (Except.error PaginationError.typeError, 2) :=
  (pagination_scalar_guard ⟨Body.scalar 7, some 1, fun _ => ([], none)⟩ 7 rfl).1
    1 none 1 rfl (by decide) (by decide) (by decide)

theorem makeReqLoop_cap_zero (next : Nat → List Nat × Option Nat) :
    ∀ fuel body tok i reqs,
      makeReqLoop next (some 0) fuel body tok i reqs
        = makeReqLoop next none fuel body tok i reqs := by
  intro fuel
  induction fuel with
  | zero =>
    intro body tok i reqs
    cases tok with
    | none => rfl
    | some t => by_cases ht : t = 0 <;> simp [makeReqLoop, ht, pageCapReached]
  | succ fuel' ih =>
    intro body tok i reqs
    cases tok with
    | none => rfl
    | some t =>
      by_cases ht : t = 0
      · simp [makeReqLoop, ht]
      · cases body with
        | records rs =>
          rw [makeReqLoop_cont ht (by simp [pageCapReached]),
            makeReqLoop_cont ht (by simp [pageCapReached]), ih]
        | scalar r =>
          rw [makeReqLoop_scalar ht (by simp [pageCapReached]),
            makeReqLoop_scalar ht (by simp [pageCapReached])]

/-- Claim C9: because line 150 tests `max_pages` for truthiness and `0` is
falsy in Python, `_make_req` with `max_pages=0` behaves exactly like
`max_pages=None`: the page cap never fires and pagination continues until
no truthy continuation token remains. -/
theorem max_pages_zero_like_none (src : PageSource) (fuel : Nat) :
    makeReq src (some 0) fuel = makeReq src none fuel := by
  rw [makeReq, makeReq, makeReqLoop_cap_zero]

/-! ### The identifier cache (lines 41-131) -/

/-- Cached id-to-address map of one folder: an insertion-ordered
`{decentlab_id: address}` dict (the inner dicts of
`_id_to_address_mapping`). -/
abbrev FolderCache := List (Nat × String)

/-- The cache `_id_to_address_mapping`: a `defaultdict(dict)` from folder
slug to per-folder dict.  An absent folder and a present-but-empty folder
dict are behaviourally identical in the source (both are falsy on reads,
and writes auto-create the inner dict), so the cache is modelled as a total
function with default `[]`. -/
abbrev Cache := String → FolderCache

/-- The cache of a freshly constructed client. -/
def emptyCache : Cache := fun _ => []

/-- Writing one folder's dict back into the cache. -/
def cacheSet (c : Cache) (folder : String) (fc : FolderCache) : Cache :=
  fun f => if f = folder then fc else c f

/-- The derived reverse view `_address_to_id_mapping` of one folder's dict
(lines 47-52): the dict comprehension `{v: k for k, v in inner.items()}`,
i.e. the items folded left-to-right into a fresh dict by assignment, so for
a duplicated address the later id wins. -/
def reverseView (fc : FolderCache) : List (String × Nat) :=
  fc.foldl (fun acc p => assocSet acc p.2 p.1) []

/-- Remote environment of the cache operations: the numeric serial embedded
in a device's metadata (path `fields.gerateinformation.seriennummer` of
`get_device(address)`), the `device_id`s carried by the readings of a
device (body of `get_readings(device_name, limit=1, max_pages=1)`), and the
device names listed in a folder (`get_devices(folder)`). -/
structure Env where
  deviceSerial : String → Nat
  readings : String → List Nat
  devices : String → List String

/-- One network request issued by the cache operations. -/
inductive Request where
  | getDevice : String → Request
  | getDevices : String → Request
  | getReadings : String → Request
deriving DecidableEq

/-- Failure modes of `address_from_decentlab_id`: the `ValueError` of
lines 128-131 when the device list is exhausted without a match, and the
`IndexError` of the unconditional `resp['body'][0]` on line 123 when a
probed device has zero readings. -/
inductive LookupError where
  | unresolvable : Nat → LookupError
  | indexError : LookupError
deriving DecidableEq

/-- `ElementApi.decentlab_id_from_address` (lines 54-75).  Returns the id,
the cache afterwards, and the list of requests issued.  The derived
reverse view is consulted first (`folder_mapping.get(address) if
folder_mapping else None`, an absent or empty folder dict being falsy); the
miss test is `is None`, so any cached id (including `0`) is a hit.  On a
miss the device record is fetched, the serial extracted, and the forward
cache populated. -/
def decentlab_id_from_address (env : Env) (c : Cache) (address folder : String) :
    Nat × Cache × List Request :=
  match assocGet (reverseView (c folder)) address with
  | some decentlab_id => (decentlab_id, c, [])
  | none =>
      (env.deviceSerial address,
        cacheSet c folder (assocSet (c folder) (env.deviceSerial address) address),
        [Request.getDevice address])

/-- The probe loop of `address_from_decentlab_id` (lines 107-131) over the
remaining device names.  A device whose address is already among the
folder's cached values is skipped (lines 110-115, including the truthiness
guard on the folder dict); otherwise a one-reading probe is issued and its
first reading indexed unconditionally (line 123, an `IndexError` for a
device with zero readings), the discovered pair is cached (line 124), and
the loop short-circuits on a match (lines 125-126).  Exhausting the list
raises the `ValueError` of lines 127-131 (`for`/`else`). -/
def probeLoop (env : Env) (decentlab_id : Nat) (folder : String) :
    Cache → List Request → List String → Except LookupError String × Cache × List Request
  | c, reqs, [] => (Except.error (LookupError.unresolvable decentlab_id), c, reqs)
  | c, reqs, curr :: rest =>
    if c folder ≠ [] ∧ curr ∈ assocValues (c folder) then
      probeLoop env decentlab_id folder c reqs rest
    else
      match (env.readings curr).head? with
      | none => (Except.error LookupError.indexError, c, reqs ++ [Request.getReadings curr])
      | some curr_decentlab_id =>
          if curr_decentlab_id = decentlab_id then
            (Except.ok curr,
              cacheSet c folder (assocSet (c folder) curr_decentlab_id curr),
              reqs ++ [Request.getReadings curr])
          else
            probeLoop env decentlab_id folder
              (cacheSet c folder (assocSet (c folder) curr_decentlab_id curr))
              (reqs ++ [Request.getReadings curr]) rest

/-- `ElementApi.address_from_decentlab_id` (lines 77-131).  The cache-first
check of lines 100-102 requires a truthy folder dict and a truthy cached
address (`if folder_mapping and folder_mapping.get(decentlab_id)`; an
empty-string address is falsy in Python).  On a miss, the folder's device
list is fetched and probed in order. -/
def address_from_decentlab_id (env : Env) (c : Cache) (decentlab_id : Nat) (folder : String) :
    Except LookupError String × Cache × List Request :=
  if c folder ≠ [] ∧ ((assocGet (c folder) decentlab_id).getD "") ≠ "" then
    (Except.ok ((assocGet (c folder) decentlab_id).getD ""), c, [])
  else
    probeLoop env decentlab_id folder c [Request.getDevices folder] (env.devices folder)

/-- One identifier-cache call made through a client. -/
inductive Call where
  | fwd : String → String → Call
  | rev : Nat → String → Call

/-- The cache state after one call (`decentlab_id_from_address` for
`Call.fwd address folder`, `address_from_decentlab_id` for
`Call.rev decentlab_id folder`). -/
def runCall (env : Env) (c : Cache) : Call → Cache
  | Call.fwd address folder => (decentlab_id_from_address env c address folder).2.1
  | Call.rev decentlab_id folder => (address_from_decentlab_id env c decentlab_id folder).2.1

/-- The cache state after a sequence of identifier-cache calls. -/
def runCalls (env : Env) : Cache → List Call → Cache
  | c, [] => c
  | c, k :: ks => runCalls env (runCall env c k) ks

/-- The devices the probe loop actually probes: those of the folder's
device list not yet among the cached addresses, each at most once in list
order (a probed device's address immediately joins the cached set). -/
def probeTargets (cached : List String) : List String → List String
  | [] => []
  | d :: rest =>
    if d ∈ cached then probeTargets cached rest
    else d :: probeTargets (d :: cached) rest

/-! ### Unfolding lemmas for the probe loop -/

theorem probeLoop_nil {env : Env} {n : Nat} {folder : String} {c : Cache}
    {reqs : List Request} :
    probeLoop env n folder c reqs [] = (Except.error (LookupError.unresolvable n), c, reqs) :=
  rfl

theorem probeLoop_skip {env : Env} {n : Nat} {folder : String} {c : Cache}
    {reqs : List Request} {curr : String} {rest : List String}
    (h : c folder ≠ [] ∧ curr ∈ assocValues (c folder)) :
    probeLoop env n folder c reqs (curr :: rest) = probeLoop env n folder c reqs rest := by
  simp [probeLoop, h]

theorem probeLoop_probe_empty {env : Env} {n : Nat} {folder : String} {c : Cache}
    {reqs : List Request} {curr : String} {rest : List String}
    (hskip : ¬(c folder ≠ [] ∧ curr ∈ assocValues (c folder)))
    (hr : (env.readings curr).head? = none) :
    probeLoop env n folder c reqs (curr :: rest)
      = (Except.error LookupError.indexError, c, reqs ++ [Request.getReadings curr]) := by
  simp [probeLoop, hskip, hr]

theorem probeLoop_probe_hit {env : Env} {n : Nat} {folder : String} {c : Cache}
    {reqs : List Request} {curr : String} {rest : List String}
    (hskip : ¬(c folder ≠ [] ∧ curr ∈ assocValues (c folder)))
    (hr : (env.readings curr).head? = some n) :
    probeLoop env n folder c reqs (curr :: rest)
      = (Except.ok curr, cacheSet c folder (assocSet (c folder) n curr),
          reqs ++ [Request.getReadings curr]) := by
  simp [probeLoop, hskip, hr]

theorem probeLoop_probe_miss {env : Env} {n : Nat} {folder : String} {c : Cache}
    {reqs : List Request} {curr : String} {rest : List String} {m : Nat}
    (hskip : ¬(c folder ≠ [] ∧ curr ∈ assocValues (c folder)))
    (hr : (env.readings curr).head? = some m) (hne : m ≠ n) :
    probeLoop env n folder c reqs (curr :: rest)
      = probeLoop env n folder (cacheSet c folder (assocSet (c folder) m curr))
          (reqs ++ [Request.getReadings curr]) rest := by
  simp [probeLoop, hskip, hr, hne]

theorem address_from_decentlab_id_probe {env : Env} {c : Cache} {n : Nat} {folder : String}
    (h : ¬(c folder ≠ [] ∧ ((assocGet (c folder) n).getD "") ≠ "")) :
    address_from_decentlab_id env c n folder
      = probeLoop env n folder c [Request.getDevices folder] (env.devices folder) := by
  simp [address_from_decentlab_id, h]

theorem address_from_decentlab_id_hit {env : Env} {c : Cache} {n : Nat} {folder : String}
    (h : c folder ≠ [] ∧ ((assocGet (c folder) n).getD "") ≠ "") :
    address_from_decentlab_id env c n folder
      = (Except.ok ((assocGet (c folder) n).getD ""), c, []) := by
  simp [address_from_decentlab_id, h]

/-- Claim C1: for every folder whose device list is `[d1, d2, d3]` with
numeric ids `[11, 22, 33]` in that order and an initially empty cache,
`address_from_decentlab_id(22, folder)` returns `d2`'s address after
issuing exactly one device-list request and one reading probe each for `d1`
and `d2` (none for `d3`), and leaves the folder's cache with exactly the
entries `11 -> d1` and `22 -> d2` (nothing for `d3`, nothing in other
folders). -/
theorem probe_short_circuit (env : Env) (folder d1 d2 d3 : String)
    (hdev : env.devices folder = [d1, d2, d3])
    (h1 : (env.readings d1).head? = some 11)
    (h2 : (env.readings d2).head? = some 22)
    (h3 : (env.readings d3).head? = some 33) :
    (address_from_decentlab_id env emptyCache 22 folder).1 = Except.ok d2
    ∧ (address_from_decentlab_id env emptyCache 22 folder).2.1 folder = [(11, d1), (22, d2)]
    ∧ (∀ f, f ≠ folder → (address_from_decentlab_id env emptyCache 22 folder).2.1 f = [])
    ∧ (address_from_decentlab_id env emptyCache 22 folder).2.2
        = [Request.getDevices folder, Request.getReadings d1, Request.getReadings d2] := by
  have hd21 : d2 ≠ d1 := by
    intro he
    rw [he, h1] at h2
    exact absurd h2 (by decide)
  have hskip1 : ¬(emptyCache folder ≠ [] ∧ d1 ∈ assocValues (emptyCache folder)) := by
    simp [emptyCache]
  have hskip2 : ¬(cacheSet emptyCache folder (assocSet (emptyCache folder) 11 d1) folder ≠ []
      ∧ d2 ∈ assocValues
          (cacheSet emptyCache folder (assocSet (emptyCache folder) 11 d1) folder)) := by
    simp [cacheSet, emptyCache, assocSet, assocValues, hd21]
  rw [address_from_decentlab_id_probe (by simp [emptyCache]), hdev,
    probeLoop_probe_miss hskip1 h1 (by decide), probeLoop_probe_hit hskip2 h2]
  refine ⟨rfl, ?_, ?_, rfl⟩
  · simp [cacheSet, emptyCache, assocSet]
  · intro f hf
    simp [cacheSet, emptyCache, hf]

/-- Witness for C1 at a concrete environment and folder. -/
theorem probe_short_circuit_witness :
    (address_from_decentlab_id
          ⟨fun _ => 0,
            fun a => if a = "D1" then [11] else if a = "D2" then [22] else [33],
            fun _ => ["D1", "D2", "D3"]⟩ emptyCache 22 "greenhouse").1
        = Except.ok "D2"
    ∧ (address_from_decentlab_id
          ⟨fun _ => 0,
            fun a => if a = "D1" then [11] else if a = "D2" then [22] else [33],
            fun _ => ["D1", "D2", "D3"]⟩ emptyCache 22 "greenhouse").2.1 "greenhouse"
        = [(11, "D1"), (22, "D2")]
    ∧ (∀ f, f ≠ "greenhouse" →
        (address_from_decentlab_id
            ⟨fun _ => 0,
              fun a => if a = "D1" then [11] else if a = "D2" then [22] else [33],
              fun _ => ["D1", "D2", "D3"]⟩ emptyCache 22 "greenhouse").2.1 f = [])
    ∧ (address_from_decentlab_id
          ⟨fun _ => 0,
            fun a => if a = "D1" then [11] else if a = "D2" then [22] else [33],
            fun _ => ["D1", "D2", "D3"]⟩ emptyCache 22 "greenhouse").2.2
        = [Request.getDevices "greenhouse", Request.getReadings "D1",
            Request.getReadings "D2"] :=
  probe_short_circuit _ "greenhouse" "D1" "D2" "D3" rfl (by decide) (by decide) (by decide)

theorem probeLoop_reaches_empty {env : Env} {target : Nat} {folder : String}
    {d : String} {post : List String} (hdread : env.readings d = []) :
    ∀ (pre : List String) (c : Cache) (reqs : List Request),
      d ∉ pre → d ∉ assocValues (c folder) →
      (∀ p ∈ pre, ∀ n, (env.readings p).head? = some n → n ≠ target) →
      (probeLoop env target folder c reqs (pre ++ d :: post)).1
        = Except.error LookupError.indexError := by
  intro pre
  induction pre with
  | nil =>
    intro c reqs _ hdc _
    have hskip : ¬(c folder ≠ [] ∧ d ∈ assocValues (c folder)) := fun h => hdc h.2
    rw [List.nil_append, probeLoop_probe_empty hskip (by simp [hdread])]
  | cons p pre' ih =>
    intro c reqs hdpre hdc hpre
    have hdpre' : d ∉ pre' := fun h => hdpre (List.mem_cons_of_mem _ h)
    have hdp : d ≠ p := fun h => hdpre (h ▸ List.mem_cons_self _ _)
    rw [List.cons_append]
    by_cases hskip : c folder ≠ [] ∧ p ∈ assocValues (c folder)
    · rw [probeLoop_skip hskip]
      exact ih c reqs hdpre' hdc (fun q hq => hpre q (List.mem_cons_of_mem _ hq))
    · cases hr : (env.readings p).head? with
      | none => rw [probeLoop_probe_empty hskip hr]
      | some m =>
        have hm : m ≠ target := hpre p (List.mem_cons_self _ _) m hr
        rw [probeLoop_probe_miss hskip hr hm]
        refine ih _ _ hdpre' ?_ (fun q hq => hpre q (List.mem_cons_of_mem _ hq))
        intro hmem
        rw [show cacheSet c folder (assocSet (c folder) m p) folder
            = assocSet (c folder) m p by simp [cacheSet]] at hmem
        rcases mem_assocValues_assocSet hmem with h | h
        · exact hdp h
        · exact hdc h

/-- Claim C10: the probe loop accesses the first reading of each probed
device by unconditional index 0 (line 123), so when an uncached device with
zero readings is reached before the target id is found, the operation fails
with the index-out-of-range structural error rather than skipping the
device or raising the unresolvable-id `ValueError`. -/
theorem probe_zero_readings_index_error (env : Env) (c : Cache) (target : Nat)
    (folder : String) (pre post : List String) (d : String)
    (hdev : env.devices folder = pre ++ d :: post)
    (hmiss : assocGet (c folder) target = none)
    (hdpre : d ∉ pre)
    (hdcache : d ∉ assocValues (c folder))
    (hdread : env.readings d = [])
    (hpre : ∀ p ∈ pre, ∀ n, (env.readings p).head? = some n → n ≠ target) :
    (address_from_decentlab_id env c target folder).1
      = Except.error LookupError.indexError := by
  rw [address_from_decentlab_id_probe (by simp [hmiss]), hdev]
  exact probeLoop_reaches_empty hdread pre c _ hdpre hdcache hpre

/-- Witness for C10: device `A` (one reading, id 1) is probed first, then
device `B` with zero readings makes the lookup of id 5 fail structurally. -/
theorem probe_zero_readings_index_error_witness :
    (address_from_decentlab_id
        ⟨fun _ => 0, fun a => if a = "A" then [1] else [], fun _ => ["A", "B"]⟩
        emptyCache 5 "f").1
      = Except.error LookupError.indexError :=
  probe_zero_readings_index_error _ emptyCache 5 "f" ["A"] [] "B" rfl rfl
    (by decide) (by decide) (by decide)
    (by
      intro p hp n hn
      have hp' : p = "A" := by simpa using hp
      subst hp'
      simp at hn
      omega)

theorem probeTargets_congr : ∀ (ds cached1 cached2 : List String),
    (∀ x, x ∈ cached1 ↔ x ∈ cached2) →
    probeTargets cached1 ds = probeTargets cached2 ds := by
  intro ds
  induction ds with
  | nil => intro _ _ _; rfl
  | cons d rest ih =>
    intro c1 c2 h
    by_cases hd : d ∈ c1
    · rw [probeTargets, probeTargets, if_pos hd, if_pos ((h d).mp hd)]
      exact ih c1 c2 h
    · rw [probeTargets, probeTargets, if_neg hd, if_neg (fun hx => hd ((h d).mpr hx))]
      rw [ih (d :: c1) (d :: c2) (fun x => by simp [h x])]

theorem count_probeTargets : ∀ (ds cached : List String) (d : String),
    (probeTargets cached ds).count d = if d ∈ ds ∧ d ∉ cached then 1 else 0 := by
  intro ds
  induction ds with
  | nil => intro cached d; simp [probeTargets]
  | cons e rest ih =>
    intro cached d
    by_cases he : e ∈ cached
    · rw [probeTargets, if_pos he, ih]
      by_cases hd : d = e
      · subst hd
        simp [he]
      · simp [List.mem_cons, hd]
    · rw [probeTargets, if_neg he, List.count_cons, ih]
      by_cases hd : d = e
      · subst hd
        simp [List.mem_cons, he]
      · have hd2 : e ≠ d := fun h => hd h.symm
        simp [List.mem_cons, hd, hd2]

theorem count_map_getReadings (l : List String) (d : String) :
    ((l.map Request.getReadings).count (Request.getReadings d)) = l.count d := by
  induction l with
  | nil => rfl
  | cons e rest ih => simp [List.count_cons, ih]

theorem probeLoop_exhaust {env : Env} {target : Nat} {folder : String} :
    ∀ (ds : List String) (c : Cache) (reqs : List Request),
      (∀ p ∈ c folder, (env.readings p.2).head? = some p.1) →
      (∀ a, (a ∈ assocValues (c folder) ∨ a ∈ ds) →
        ∀ b, (b ∈ assocValues (c folder) ∨ b ∈ ds) →
        (env.readings a).head? = (env.readings b).head? → a = b) →
      (∀ x ∈ ds, ((env.readings x).head?).isSome = true) →
      (∀ x, (x ∈ assocValues (c folder) ∨ x ∈ ds) →
        (env.readings x).head? ≠ some target) →
      (probeLoop env target folder c reqs ds).1
          = Except.error (LookupError.unresolvable target)
      ∧ (probeLoop env target folder c reqs ds).2.2
          = reqs ++ (probeTargets (assocValues (c folder)) ds).map Request.getReadings := by
  intro ds
  induction ds with
  | nil =>
    intro c reqs _ _ _ _
    simp [probeLoop_nil, probeTargets]
  | cons x rest ih =>
    intro c reqs hcons hinj hreads htgt
    have hmemx : ∀ y : String, y ∈ rest → y ∈ x :: rest := fun y => List.mem_cons_of_mem x
    by_cases hskip : c folder ≠ [] ∧ x ∈ assocValues (c folder)
    · rw [probeLoop_skip hskip, probeTargets, if_pos hskip.2]
      exact ih c reqs hcons
        (fun a ha b hb => hinj a (ha.imp_right (hmemx a)) b (hb.imp_right (hmemx b)))
        (fun y hy => hreads y (hmemx y hy))
        (fun y hy => htgt y (hy.imp_right (hmemx y)))
    · have hxV : x ∉ assocValues (c folder) := by
        by_cases hc : c folder = []
        · simp [hc, assocValues]
        · exact fun hx => hskip ⟨hc, hx⟩
      have hx : x ∈ x :: rest := List.mem_cons_self _ _
      cases hr : (env.readings x).head? with
      | none =>
        have := hreads x hx
        rw [hr] at this
        simp at this
      | some m =>
        have hm : m ≠ target := fun he => htgt x (Or.inr hx) (he ▸ hr)
        rw [probeLoop_probe_miss hskip hr hm]
        have hkeys : m ∉ assocKeys (c folder) := by
          intro hk
          rcases List.mem_map.mp hk with ⟨p, hp, hp1⟩
          have hvals : p.2 ∈ assocValues (c folder) := List.mem_map.mpr ⟨p, hp, rfl⟩
          have : p.2 = x :=
            hinj p.2 (Or.inl hvals) x (Or.inr hx) (by rw [hcons p hp, hp1, hr])
          exact hxV (this ▸ hvals)
        have hfc : cacheSet c folder (assocSet (c folder) m x) folder
            = c folder ++ [(m, x)] := by
          simp [cacheSet, assocSet_eq_append_of_not_mem_keys x hkeys]
        have hvals' : assocValues (cacheSet c folder (assocSet (c folder) m x) folder)
            = assocValues (c folder) ++ [x] := by
          rw [hfc]
          simp [assocValues]
        have hmem' : ∀ y : String,
            (y ∈ assocValues (cacheSet c folder (assocSet (c folder) m x) folder)
              ∨ y ∈ rest)
            → (y ∈ assocValues (c folder) ∨ y ∈ x :: rest) := by
          intro y hy
          rw [hvals'] at hy
          rcases hy with hy | hy
          · rcases List.mem_append.mp hy with hy | hy
            · exact Or.inl hy
            · simp only [List.mem_singleton] at hy
              exact Or.inr (hy ▸ hx)
          · exact Or.inr (hmemx y hy)
        have hcons' : ∀ p ∈ cacheSet c folder (assocSet (c folder) m x) folder,
            (env.readings p.2).head? = some p.1 := by
          rw [hfc]
          intro p hp
          rcases List.mem_append.mp hp with hp | hp
          · exact hcons p hp
          · simp only [List.mem_singleton] at hp
            subst hp
            exact hr
        obtain ⟨ihl, ihr⟩ :=
          ih (cacheSet c folder (assocSet (c folder) m x))
            (reqs ++ [Request.getReadings x]) hcons'
            (fun a ha b hb => hinj a (hmem' a ha) b (hmem' b hb))
            (fun y hy => hreads y (hmemx y hy))
            (fun y hy => htgt y (hmem' y hy))
        refine ⟨ihl, ?_⟩
        rw [ihr, hvals', probeTargets, if_neg hxV,
          probeTargets_congr rest (assocValues (c folder) ++ [x])
            (x :: assocValues (c folder)) (fun y => by simp [or_comm])]
        simp

/-- Claim C4: for every folder and every numeric id that equals no device's
discovered id in that folder, `address_from_decentlab_id` raises the
`ValueError`-class unresolvable-id error identifying the unmatched id, and
only after issuing exactly one reading-probe request for every device in
the folder not already present in the cache (and none for cached devices);
it never returns a sentinel value.  The hypotheses state the scenario: the
cache agrees with the discovery oracle, distinct addresses carry distinct
ids (the spec's bijection invariant), every device has at least one
reading, and no relevant device discovers the target id. -/
theorem unresolvable_id_error (env : Env) (c : Cache) (target : Nat) (folder : String)
    (hcons : ∀ p ∈ c folder, (env.readings p.2).head? = some p.1)
    (hinj : ∀ a, (a ∈ assocValues (c folder) ∨ a ∈ env.devices folder) →
      ∀ b, (b ∈ assocValues (c folder) ∨ b ∈ env.devices folder) →
      (env.readings a).head? = (env.readings b).head? → a = b)
    (hreads : ∀ x ∈ env.devices folder, ((env.readings x).head?).isSome = true)
    (htgt : ∀ x, (x ∈ assocValues (c folder) ∨ x ∈ env.devices folder) →
      (env.readings x).head? ≠ some target) :
    (address_from_decentlab_id env c target folder).1
        = Except.error (LookupError.unresolvable target)
    ∧ ∀ d, ((address_from_decentlab_id env c target folder).2.2).count
          (Request.getReadings d)
        = if d ∈ env.devices folder ∧ d ∉ assocValues (c folder) then 1 else 0 := by
  have hmiss : ¬(c folder ≠ [] ∧ ((assocGet (c folder) target).getD "") ≠ "") := by
    rintro ⟨-, hgd⟩
    cases hga : assocGet (c folder) target with
    | none => rw [hga] at hgd; simp at hgd
    | some a =>
      have hmem := mem_of_assocGet_eq_some hga
      have hv : a ∈ assocValues (c folder) := List.mem_map.mpr ⟨_, hmem, rfl⟩
      exact htgt a (Or.inl hv) (hcons _ hmem)
  rw [address_from_decentlab_id_probe hmiss]
  obtain ⟨hl, hr⟩ := probeLoop_exhaust (env.devices folder) c [Request.getDevices folder]
    hcons hinj hreads htgt
  refine ⟨hl, ?_⟩
  intro d
  rw [hr]
  simp only [List.count_append, count_map_getReadings, count_probeTargets]
  simp [List.count_cons]

/-- Witness for C4: folder `f` has devices `A` (id 1) and `B` (id 2); id 5
is unresolvable after probing both. -/
theorem unresolvable_id_error_witness :
    (address_from_decentlab_id
          ⟨fun _ => 0, fun a => if a = "A" then [1] else if a = "B" then [2] else [],
            fun _ => ["A", "B"]⟩ emptyCache 5 "f").1
        = Except.error (LookupError.unresolvable 5)
    ∧ ((address_from_decentlab_id
          ⟨fun _ => 0, fun a => if a = "A" then [1] else if a = "B" then [2] else [],
            fun _ => ["A", "B"]⟩ emptyCache 5 "f").2.2).count (Request.getReadings "A")
        = 1 := by
  have h := unresolvable_id_error
    ⟨fun _ => 0, fun a => if a = "A" then [1] else if a = "B" then [2] else [],
      fun _ => ["A", "B"]⟩ emptyCache 5 "f"
    (by simp [emptyCache])
    (by
      intro a ha b hb hab
      simp only [emptyCache, assocValues, List.map_nil, List.not_mem_nil, false_or] at ha hb
      have ha' : a = "A" ∨ a = "B" := by simpa using ha
      have hb' : b = "A" ∨ b = "B" := by simpa using hb
      rcases ha' with rfl | rfl <;> rcases hb' with rfl | rfl <;> simp_all)
    (by
      intro x hx
      have hx' : x = "A" ∨ x = "B" := by simpa using hx
      rcases hx' with rfl | rfl <;> rfl)
    (by
      intro x hx h5
      simp only [emptyCache, assocValues, List.map_nil, List.not_mem_nil, false_or] at hx
      have hx' : x = "A" ∨ x = "B" := by simpa using hx
      rcases hx' with rfl | rfl <;> simp_all)
  refine ⟨h.1, ?_⟩
  rw [h.2 "A"]
  decide

/-! ### The derived reverse view (lines 47-52) -/

theorem assocGet_reverseView_aux {a : String} {n : Nat} :
    ∀ (fc : FolderCache) (acc : List (String × Nat)),
      assocGet (fc.foldl (fun acc p => assocSet acc p.2 p.1) acc) a = some n →
      (n, a) ∈ fc ∨ assocGet acc a = some n := by
  intro fc
  induction fc with
  | nil => intro acc h; exact Or.inr h
  | cons p rest ih =>
    intro acc h
    rw [List.foldl_cons] at h
    rcases ih (assocSet acc p.2 p.1) h with h | h
    · exact Or.inl (List.mem_cons_of_mem _ h)
    · obtain ⟨pk, pv⟩ := p
      by_cases ha : a = pv
      · subst ha
        rw [assocGet_assocSet_self] at h
        have hpk : pk = n := by simpa using h
        subst hpk
        exact Or.inl (List.mem_cons_self _ _)
      · rw [assocGet_assocSet_ne _ _ _ _ ha] at h
        exact Or.inr h

theorem mem_of_assocGet_reverseView {fc : FolderCache} {a : String} {n : Nat}
    (h : assocGet (reverseView fc) a = some n) : (n, a) ∈ fc := by
  rcases assocGet_reverseView_aux fc [] h with h | h
  · exact h
  · simp [assocGet] at h

theorem assocGet_foldl_rv_not_mem {a : String} :
    ∀ (fc : FolderCache) (acc : List (String × Nat)), a ∉ assocValues fc →
      assocGet (fc.foldl (fun acc p => assocSet acc p.2 p.1) acc) a = assocGet acc a := by
  intro fc
  induction fc with
  | nil => intro acc _; rfl
  | cons p rest ih =>
    intro acc ha
    simp only [assocValues, List.map_cons, List.mem_cons] at ha
    push_neg at ha
    rw [List.foldl_cons, ih (assocSet acc p.2 p.1) (by simpa [assocValues] using ha.2),
      assocGet_assocSet_ne _ _ _ _ ha.1]

theorem assocGet_reverseView_of_mem {a : String} {n : Nat} :
    ∀ (fc : FolderCache), (assocValues fc).Nodup → (n, a) ∈ fc →
      assocGet (reverseView fc) a = some n := by
  have haux : ∀ (fc : FolderCache) (acc : List (String × Nat)),
      (assocValues fc).Nodup → (n, a) ∈ fc →
      assocGet (fc.foldl (fun acc p => assocSet acc p.2 p.1) acc) a = some n := by
    intro fc
    induction fc with
    | nil => intro acc _ hmem; simp at hmem
    | cons p rest ih =>
      intro acc hnd hmem
      simp only [assocValues, List.map_cons, List.nodup_cons] at hnd
      rw [List.foldl_cons]
      rcases List.mem_cons.mp hmem with h | h
      · have hp : p = (n, a) := h.symm
        subst hp
        rw [assocGet_foldl_rv_not_mem rest _ (by simpa [assocValues] using hnd.1)]
        exact assocGet_assocSet_self _ _ _
      · exact ih _ (by simpa [assocValues] using hnd.2) h
  intro fc hnd hmem
  exact haux fc [] hnd hmem

/-- Claim C7: the derived reverse view `_address_to_id_mapping` is the
pointwise inversion of the forward map: for a folder dict (duplicate-free
keys, as any Python dict has) whose forward map is injective
(duplicate-free addresses), the reverse view maps address `a` to id `n`
precisely when the forward map maps `n` to `a`.  The view is computed from
the forward map on every access (`reverseView` is a function of the folder
dict, not stored state). -/
theorem reverse_view_inversion (c : Cache) (folder a : String) (n : Nat)
    (hkeys : (assocKeys (c folder)).Nodup) (hvals : (assocValues (c folder)).Nodup) :
    assocGet (reverseView (c folder)) a = some n ↔ assocGet (c folder) n = some a := by
  constructor
  · intro h
    exact assocGet_eq_some_of_mem_of_nodup hkeys (mem_of_assocGet_reverseView h)
  · intro h
    exact assocGet_reverseView_of_mem _ hvals (mem_of_assocGet_eq_some h)

/-- Witness for C7 on a concrete two-entry folder dict. -/
theorem reverse_view_inversion_witness :
    assocGet (reverseView ((fun f => if f = "f" then [(1, "A"), (2, "B")] else []) "f")) "B"
        = some 2
      ↔ assocGet ((fun f => if f = "f" then [(1, "A"), (2, "B")] else []) "f") 2 = some "B" :=
  reverse_view_inversion (fun f => if f = "f" then [(1, "A"), (2, "B")] else []) "f" "B" 2
    (by decide) (by decide)

theorem decentlab_id_from_address_hit {env : Env} {c : Cache} {address folder : String}
    {n : Nat} (h : assocGet (reverseView (c folder)) address = some n) :
    decentlab_id_from_address env c address folder = (n, c, []) := by
  simp [decentlab_id_from_address, h]

theorem decentlab_id_from_address_fetch {env : Env} {c : Cache} {address folder : String}
    (h : assocGet (reverseView (c folder)) address = none) :
    decentlab_id_from_address env c address folder
      = (env.deviceSerial address,
          cacheSet c folder (assocSet (c folder) (env.deviceSerial address) address),
          [Request.getDevice address]) := by
  simp [decentlab_id_from_address, h]

/-- Counterexample to C3 as stated: the reverse-hit test of line 101
(`folder_mapping.get(decentlab_id)`) checks the cached address for
truthiness, and the empty string is falsy in Python.  With address `""`
(and a folder with no devices), `decentlab_id_from_address("", "f")`
resolves and caches id 7, but the immediately following
`address_from_decentlab_id(7, "f")` misses the cache, issues a device-list
request, and raises instead of returning `""` with zero requests. -/
theorem cache_roundtrip_counterexample :
    ((decentlab_id_from_address
        ⟨fun _ => 7, fun _ => [], fun _ => []⟩ emptyCache "" "f").1 = 7)
    ∧ (address_from_decentlab_id ⟨fun _ => 7, fun _ => [], fun _ => []⟩
        (decentlab_id_from_address ⟨fun _ => 7, fun _ => [], fun _ => []⟩
          emptyCache "" "f").2.1
        7 "f").1 = Except.error (LookupError.unresolvable 7)
    ∧ (address_from_decentlab_id ⟨fun _ => 7, fun _ => [], fun _ => []⟩
        (decentlab_id_from_address ⟨fun _ => 7, fun _ => [], fun _ => []⟩
          emptyCache "" "f").2.1
        7 "f").2.2 = [Request.getDevices "f"] :=
  ⟨rfl, rfl, rfl⟩

/-- Claim C3 (amended): for every NONEMPTY address `addr` and folder, if
`decentlab_id_from_address(addr, folder)` returns id `X`, the immediately
following `address_from_decentlab_id(X, folder)` returns `addr` with zero
network requests and an unchanged cache; and a forward or reverse lookup of
a pair `(n, addr)` already cached for the folder issues zero requests,
returns the cached partner, and leaves the cache unchanged (so repetition
never adds requests).  The folder dict has duplicate-free keys and, for the
cached-pair part, duplicate-free values, as every cache reachable from a
fresh client does. -/
theorem cache_roundtrip (env : Env) (c : Cache) (folder addr : String) (n : Nat)
    (haddr : addr ≠ "") (hkeys : (assocKeys (c folder)).Nodup) :
    (address_from_decentlab_id env
        (decentlab_id_from_address env c addr folder).2.1
        (decentlab_id_from_address env c addr folder).1 folder
      = (Except.ok addr, (decentlab_id_from_address env c addr folder).2.1, []))
    ∧ ((n, addr) ∈ c folder → (assocValues (c folder)).Nodup →
        decentlab_id_from_address env c addr folder = (n, c, [])
        ∧ address_from_decentlab_id env c n folder = (Except.ok addr, c, [])) := by
  constructor
  · cases hget : assocGet (reverseView (c folder)) addr with
    | some x =>
      rw [decentlab_id_from_address_hit hget]
      have hmem : (x, addr) ∈ c folder := mem_of_assocGet_reverseView hget
      have hfwd : assocGet (c folder) x = some addr :=
        assocGet_eq_some_of_mem_of_nodup hkeys hmem
      have hne : c folder ≠ [] := List.ne_nil_of_mem hmem
      rw [address_from_decentlab_id_hit ⟨hne, by rw [hfwd]; exact haddr⟩, hfwd]
      rfl
    | none =>
      rw [decentlab_id_from_address_fetch hget]
      have hc' : cacheSet c folder
          (assocSet (c folder) (env.deviceSerial addr) addr) folder
          = assocSet (c folder) (env.deviceSerial addr) addr := by
        simp [cacheSet]
      have hfwd : assocGet (cacheSet c folder
            (assocSet (c folder) (env.deviceSerial addr) addr) folder)
          (env.deviceSerial addr) = some addr := by
        rw [hc']
        exact assocGet_assocSet_self _ _ _
      have hne : cacheSet c folder
          (assocSet (c folder) (env.deviceSerial addr) addr) folder ≠ [] := by
        rw [hc']
        exact assocSet_ne_nil _ _ _
      rw [address_from_decentlab_id_hit ⟨hne, by rw [hfwd]; exact haddr⟩, hfwd]
      rfl
  · intro hmem hvals
    have hrv : assocGet (reverseView (c folder)) addr = some n :=
      assocGet_reverseView_of_mem _ hvals hmem
    have hfwd : assocGet (c folder) n = some addr :=
      assocGet_eq_some_of_mem_of_nodup hkeys hmem
    have hne : c folder ≠ [] := List.ne_nil_of_mem hmem
    exact ⟨decentlab_id_from_address_hit hrv,
      by rw [address_from_decentlab_id_hit ⟨hne, by rw [hfwd]; exact haddr⟩, hfwd]; rfl⟩

/-- Witness for the amended C3 at a concrete environment, address and
cached pair. -/
theorem cache_roundtrip_witness :
    (address_from_decentlab_id ⟨fun _ => 5, fun _ => [], fun _ => []⟩
        (decentlab_id_from_address ⟨fun _ => 5, fun _ => [], fun _ => []⟩
          (fun f => if f = "f" then [(9, "B")] else []) "A" "f").2.1
        (decentlab_id_from_address ⟨fun _ => 5, fun _ => [], fun _ => []⟩
          (fun f => if f = "f" then [(9, "B")] else []) "A" "f").1 "f"
      = (Except.ok "A",
          (decentlab_id_from_address ⟨fun _ => 5, fun _ => [], fun _ => []⟩
            (fun f => if f = "f" then [(9, "B")] else []) "A" "f").2.1, []))
    ∧ ((9, "B") ∈ (fun f => if f = "f" then [(9, "B")] else []) "f"
        → (assocValues ((fun f => if f = "f" then [(9, "B")] else []) "f")).Nodup
        → decentlab_id_from_address ⟨fun _ => 5, fun _ => [], fun _ => []⟩
              (fun f => if f = "f" then [(9, "B")] else []) "B" "f"
            = (9, (fun f => if f = "f" then [(9, "B")] else []), [])
          ∧ address_from_decentlab_id ⟨fun _ => 5, fun _ => [], fun _ => []⟩
              (fun f => if f = "f" then [(9, "B")] else []) 9 "f"
            = (Except.ok "B", (fun f => if f = "f" then [(9, "B")] else []), [])) :=
  ⟨(cache_roundtrip ⟨fun _ => 5, fun _ => [], fun _ => []⟩
      (fun f => if f = "f" then [(9, "B")] else []) "f" "A" 9
      (by decide) (by decide)).1,
    (cache_roundtrip ⟨fun _ => 5, fun _ => [], fun _ => []⟩
      (fun f => if f = "f" then [(9, "B")] else []) "f" "B" 9
      (by decide) (by decide)).2⟩

/-- Counterexample to C6 as stated: two distinct addresses whose device
metadata carries the same serial number make line 73 overwrite a cache
entry that existed before the call.  After `decentlab_id_from_address("A",
"f")` the folder maps 11 to `"A"`; the next call
`decentlab_id_from_address("B", "f")` (address `"B"` is not yet in the
reverse view) rebinds 11 to `"B"`, so the pre-existing entry no longer maps
to the same address. -/
theorem cache_additive_counterexample :
    assocGet ((runCalls ⟨fun _ => 11, fun _ => [], fun _ => []⟩ emptyCache
        [Call.fwd "A" "f"]) "f") 11 = some "A"
    ∧ assocGet ((runCalls ⟨fun _ => 11, fun _ => [], fun _ => []⟩ emptyCache
        [Call.fwd "A" "f", Call.fwd "B" "f"]) "f") 11 = some "B" :=
  ⟨rfl, rfl⟩

theorem assocGet_insert_preserved {env : Env}
    (hinj : ∀ a b : String, env.deviceSerial a = env.deviceSerial b → a = b)
    {c : Cache} (hc : ∀ f, ∀ p ∈ c f, env.deviceSerial p.2 = p.1)
    (folder v : String) {f : String} {n : Nat} {a : String}
    (h : assocGet (c f) n = some a) :
    assocGet ((cacheSet c folder (assocSet (c folder) (env.deviceSerial v) v)) f) n
      = some a := by
  by_cases hf : f = folder
  · subst hf
    rw [show (cacheSet c f (assocSet (c f) (env.deviceSerial v) v)) f
        = assocSet (c f) (env.deviceSerial v) v by simp [cacheSet]]
    by_cases hn : n = env.deviceSerial v
    · subst hn
      rw [assocGet_assocSet_self]
      have ha := hc f (_, a) (mem_of_assocGet_eq_some h)
      have hav : a = v := hinj a v ha
      rw [hav]
    · rw [assocGet_assocSet_ne _ _ _ _ hn]
      exact h
  · rw [show (cacheSet c folder (assocSet (c folder) (env.deviceSerial v) v)) f = c f by
      simp [cacheSet, hf]]
    exact h

theorem consistent_insert {env : Env} {c : Cache}
    (hc : ∀ f, ∀ p ∈ c f, env.deviceSerial p.2 = p.1) (folder v : String) :
    ∀ f, ∀ p ∈ (cacheSet c folder (assocSet (c folder) (env.deviceSerial v) v)) f,
      env.deviceSerial p.2 = p.1 := by
  intro f p hp
  by_cases hf : f = folder
  · subst hf
    rw [show (cacheSet c f (assocSet (c f) (env.deviceSerial v) v)) f
        = assocSet (c f) (env.deviceSerial v) v by simp [cacheSet]] at hp
    rcases mem_of_mem_assocSet hp with h | h
    · rw [h]
    · exact hc _ _ h
  · rw [show (cacheSet c folder (assocSet (c folder) (env.deviceSerial v) v)) f = c f by
      simp [cacheSet, hf]] at hp
    exact hc _ _ hp

theorem probeLoop_additive {env : Env}
    (hinj : ∀ a b : String, env.deviceSerial a = env.deviceSerial b → a = b)
    (hread : ∀ a m, (env.readings a).head? = some m → m = env.deviceSerial a)
    (target : Nat) (folder : String) :
    ∀ (ds : List String) (c : Cache) (reqs : List Request),
      (∀ f, ∀ p ∈ c f, env.deviceSerial p.2 = p.1) →
      (∀ f, ∀ p ∈ (probeLoop env target folder c reqs ds).2.1 f,
          env.deviceSerial p.2 = p.1)
      ∧ (∀ f n a, assocGet (c f) n = some a →
          assocGet ((probeLoop env target folder c reqs ds).2.1 f) n = some a) := by
  intro ds
  induction ds with
  | nil => intro c reqs hc; exact ⟨hc, fun f n a h => h⟩
  | cons x rest ih =>
    intro c reqs hc
    by_cases hskip : c folder ≠ [] ∧ x ∈ assocValues (c folder)
    · rw [probeLoop_skip hskip]
      exact ih c reqs hc
    · cases hr : (env.readings x).head? with
      | none =>
        rw [probeLoop_probe_empty hskip hr]
        exact ⟨hc, fun f n a h => h⟩
      | some m =>
        have hm : m = env.deviceSerial x := hread x m hr
        subst hm
        by_cases hmt : env.deviceSerial x = target
        · rw [probeLoop_probe_hit hskip (by rw [hr, hmt]), ← hmt]
          exact ⟨consistent_insert hc folder x,
            fun f n a h => assocGet_insert_preserved hinj hc folder x h⟩
        · rw [probeLoop_probe_miss hskip hr hmt]
          obtain ⟨ih1, ih2⟩ :=
            ih (cacheSet c folder (assocSet (c folder) (env.deviceSerial x) x))
              (reqs ++ [Request.getReadings x]) (consistent_insert hc folder x)
          exact ⟨ih1,
            fun f n a h => ih2 f n a (assocGet_insert_preserved hinj hc folder x h)⟩

theorem runCall_additive {env : Env}
    (hinj : ∀ a b : String, env.deviceSerial a = env.deviceSerial b → a = b)
    (hread : ∀ a m, (env.readings a).head? = some m → m = env.deviceSerial a)
    {c : Cache} (hc : ∀ f, ∀ p ∈ c f, env.deviceSerial p.2 = p.1) (k : Call) :
    (∀ f, ∀ p ∈ (runCall env c k) f, env.deviceSerial p.2 = p.1)
    ∧ (∀ f n a, assocGet (c f) n = some a →
        assocGet ((runCall env c k) f) n = some a) := by
  cases k with
  | fwd address folder =>
    simp only [runCall]
    cases hget : assocGet (reverseView (c folder)) address with
    | some m =>
      rw [decentlab_id_from_address_hit hget]
      exact ⟨hc, fun f n a h => h⟩
    | none =>
      rw [decentlab_id_from_address_fetch hget]
      exact ⟨consistent_insert hc folder address,
        fun f n a h => assocGet_insert_preserved hinj hc folder address h⟩
  | rev target folder =>
    simp only [runCall]
    by_cases hhit : c folder ≠ [] ∧ ((assocGet (c folder) target).getD "") ≠ ""
    · rw [address_from_decentlab_id_hit hhit]
      exact ⟨hc, fun f n a h => h⟩
    · rw [address_from_decentlab_id_probe hhit]
      exact probeLoop_additive hinj hread target folder (env.devices folder) c _ hc

/-- Claim C6 (amended): the identifier cache is strictly additive over any
sequence of `decentlab_id_from_address` / `address_from_decentlab_id`
calls PROVIDED the environment assigns ids injectively (no two addresses
share a serial, the spec's bijection invariant) and consistently between
device metadata and readings, and the starting cache agrees with it: every
`(folder, id) -> address` entry present before the calls is still present
and maps to the same address afterwards.  Without the injectivity proviso
the code overwrites entries (see the counterexample). -/
theorem cache_strictly_additive (env : Env)
    (hinj : ∀ a b : String, env.deviceSerial a = env.deviceSerial b → a = b)
    (hread : ∀ a m, (env.readings a).head? = some m → m = env.deviceSerial a) :
    ∀ (calls : List Call) (c : Cache),
      (∀ f, ∀ p ∈ c f, env.deviceSerial p.2 = p.1) →
      ∀ f n a, assocGet (c f) n = some a →
        assocGet ((runCalls env c calls) f) n = some a := by
  intro calls
  induction calls with
  | nil => intro c _ f n a h; exact h
  | cons k ks ih =>
    intro c hc f n a h
    simp only [runCalls]
    obtain ⟨h1, h2⟩ := runCall_additive hinj hread hc k
    exact ih (runCall env c k) h1 f n a (h2 f n a h)

/-- An injective numeric code on strings, used to instantiate an
environment whose serial numbers are collision-free. -/
def strCode (s : String) : Nat :=
  Encodable.encode (s.toList.map Char.toNat)

theorem strCode_injective : ∀ a b : String, strCode a = strCode b → a = b := by
  intro a b h
  have h2 : a.toList.map Char.toNat = b.toList.map Char.toNat :=
    Encodable.encode_injective h
  have hchar : Function.Injective Char.toNat := by
    intro c d hcd
    rw [← Char.ofNat_toNat c, hcd, Char.ofNat_toNat]
  have h3 : a.toList = b.toList := List.map_injective_iff.mpr hchar h2
  cases a with
  | mk da =>
    cases b with
    | mk db =>
      simp only [String.toList] at h3
      exact congrArg String.mk h3

/-- Witness for the amended C6: with collision-free serials, a cached
entry survives a further forward call. -/
theorem cache_strictly_additive_witness :
    assocGet ((runCalls ⟨strCode, fun _ => [], fun _ => []⟩
        (fun f' => if f' = "f" then [(strCode "B", "B")] else [])
        [Call.fwd "A" "f"]) "f") (strCode "B") = some "B" :=
  cache_strictly_additive ⟨strCode, fun _ => [], fun _ => []⟩
    (fun a b h => strCode_injective a b h)
    (fun a m hm => by simp at hm)
    [Call.fwd "A" "f"]
    (fun f' => if f' = "f" then [(strCode "B", "B")] else [])
    (by
      intro f p hp
      by_cases hf : f = "f"
      · subst hf
        have hp' : p = (strCode "B", "B") := by simpa using hp
        rw [hp']
      · have hp' : p ∈ ([] : FolderCache) := by simpa [hf] using hp
        simp at hp')
    "f" (strCode "B") "B"
    (by simp [assocGet])

/-! ### The printable representation `__repr__` (lines 382-389) -/

/-- The key field of the representation, line 387:
`(len(self.api_key) - 3) * "*" + self.api_key[-3:]`.  For keys of length
at most 3 both Python and this model leave the key unchanged: a negative
repetition is empty and `[-3:]` is the whole string, matching truncated
subtraction on `Nat`. -/
def redactKey (key : String) : String :=
  String.mk (List.replicate (key.length - 3) '*')
    ++ String.mk (key.toList.drop (key.length - 3))

/-- Python `repr` of a string: single quotes (escaping is not modelled; no
claim exercises it). -/
def pyRepr (s : String) : String :=
  "'" ++ s ++ "'"

/-- `ElementApi.__repr__` (lines 382-389):
`ElementApi(api_location={loc!r}, api_key={redacted})`. -/
def elementApiRepr (api_location api_key : String) : String :=
  "ElementApi(api_location=" ++ pyRepr api_location ++ ", api_key="
    ++ redactKey api_key ++ ")"

/-- `pat` occurs at the start of `l`. -/
def segAt : List Char → List Char → Bool
  | [], _ => true
  | _ :: _, [] => false
  | p :: ps, c :: cs => p == c && segAt ps cs

/-- `pat` occurs contiguously somewhere in `l` (Python `in` on strings). -/
def containsSeg (pat : List Char) : List Char → Bool
  | [] => segAt pat []
  | c :: cs => segAt pat (c :: cs) || containsSeg pat cs

/-- Claim C8: for every client whose API key is longer than 3 characters,
the printable representation renders the key as its final 3 characters
with every earlier character replaced by `'*'` (same length, `'*'` at each
earlier index, the original character at each of the last 3 indices); in
particular the printable form of a client constructed with key
`"abcdef123"` does not contain the substring `"abcdef"`. -/
theorem repr_redacts_key (key : String) (h : 3 < key.length) :
    ((redactKey key).length = key.length
      ∧ (∀ i, i < key.length - 3 → (redactKey key).toList.getD i ' ' = '*')
      ∧ (∀ i, key.length - 3 ≤ i → i < key.length →
          (redactKey key).toList.getD i ' ' = key.toList.getD i ' '))
    ∧ containsSeg "abcdef".toList
        (elementApiRepr "https://dew21.element-iot.com/api/v1" "abcdef123").toList
      = false := by
  have htl : (redactKey key).toList
      = List.replicate (key.length - 3) '*' ++ key.toList.drop (key.length - 3) := rfl
  have hkl : key.toList.length = key.length := rfl
  refine ⟨⟨?_, ?_, ?_⟩, by decide⟩
  · have hlen : (redactKey key).toList.length = key.toList.length := by
      rw [htl]
      simp only [List.length_append, List.length_replicate, List.length_drop, hkl]
      omega
    exact hlen.trans hkl
  · intro i hi
    rw [htl, List.getD_eq_getElem?_getD,
      List.getElem?_append_left (by simpa using hi),
      List.getElem?_replicate_of_lt hi]
    rfl
  · intro i h1 h2
    rw [htl, List.getD_eq_getElem?_getD,
      List.getElem?_append_right (by simpa using h1),
      List.length_replicate, List.getElem?_drop, List.getD_eq_getElem?_getD,
      show key.length - 3 + (i - (key.length - 3)) = i by omega]

/-- Witness for C8 at key `"abcdef123"`: the redacted key keeps the
length, starts with `'*'`, and the concrete printable form avoids
`"abcdef"`. -/
theorem repr_redacts_key_witness :
    (redactKey "abcdef123").length = ("abcdef123" : String).length
    ∧ (redactKey "abcdef123").toList.getD 0 ' ' = '*'
    ∧ containsSeg "abcdef".toList
        (elementApiRepr "https://dew21.element-iot.com/api/v1" "abcdef123").toList
      = false :=
  ⟨(repr_redacts_key "abcdef123" (by decide)).1.1,
    (repr_redacts_key "abcdef123" (by decide)).1.2.1 0 (by decide),
    (repr_redacts_key "abcdef123" (by decide)).2⟩

end ElementApi
